import Mathlib

/-!
Verification development for the cc-policy rule-merge engine.

The definitions below are a shallow embedding of the Rust sources:
`src/cri.rs` (runtime-default rule generation, the environment / mounts /
process-args merge algorithms), `src/kubernetes.rs` (orchestrator-default
fragment), `src/pod_yaml.rs` (volume resolution and per-container mount
requests) and `src/policy.rs` (per-container assembly and document keying).

Machine conventions:
* Rust `String` is Lean `String`; byte positions of the ASCII separators
  `=` and `:` coincide with character positions, so prefix-before-first-`=`
  is computed on `String.data`.
* A Rust panic (`unwrap` failure, `Vec::remove` out of bounds) is `none`;
  `anyhow::Result` is `Except String`.
* A Rust `HashMap` is modelled as an association list with insert-replace
  semantics; its `values()` iteration order is unspecified (it depends on
  the process-local hasher seed), so functions returning `values()` take
  an explicit reordering parameter constrained to be a permutation.
-/

/-- Name part of an environment entry: the prefix before the first `=`
character, the whole string when no `=` occurs.  This is what
`env.split_at(env.find('=')).0` yields in `src/cri.rs`. -/
def envName (s : String) : String :=
  String.mk (s.data.takeWhile (fun c => c ≠ '='))

/-- Whether an environment entry contains `=`, i.e. whether
`env.find('=')` succeeds in `src/cri.rs`. -/
def hasEq (s : String) : Bool :=
  s.data.contains '='

/-- Content of the name-to-index cache built by the first loop of
`merge_process_env` (`src/cri.rs` lines 410-417): for each name the index
of the last `defaults` entry carrying that name (later entries overwrite
earlier ones in the `HashMap`). -/
def cacheLookup (n : String) : List String → Option Nat
  | [] => none
  | e :: rest =>
    match cacheLookup n rest with
    | some i => some (i + 1)
    | none => if envName e = n then some 0 else none

/-- Second loop of `merge_process_env` (`src/cri.rs` lines 421-435): each
override containing `=` replaces the entry at the cached index in place, or
is appended when its name is not cached (the cache is not updated within
the batch); overrides without `=` are collected as removal requests. -/
def applyOverrides (cache : String → Option Nat) :
    List String → List String → List String → List String × List String
  | ds, removes, [] => (ds, removes)
  | ds, removes, o :: rest =>
    if hasEq o then
      match cache (envName o) with
      | some i => applyOverrides cache (ds.set i o) removes rest
      | none => applyOverrides cache (ds ++ [o]) removes rest
    else
      applyOverrides cache ds (removes ++ [o]) rest

/-- Third loop of `merge_process_env` (`src/cri.rs` lines 438-443): each
removal name present in the pre-override cache deletes the entry at the
cached index; `Vec::remove` panics (here: `none`) when that index is out
of bounds of the current list. -/
def applyRemoves (cache : String → Option Nat) :
    List String → List String → Option (List String)
  | ds, [] => some ds
  | ds, r :: rest =>
    match cache r with
    | some i => if i < ds.length then applyRemoves cache (ds.eraseIdx i) rest else none
    | none => applyRemoves cache ds rest

/-- Embedding of `merge_process_env` (`src/cri.rs` lines 409-446).  The
indexing loop `unwrap`s the `=`-search on every `defaults` entry, so the
function panics (`none`) as soon as some entry has no `=`. -/
def merge_process_env (defaults overrides : List String) : Option (List String) :=
  if defaults.all hasEq then
    let cache := fun n => cacheLookup n defaults
    let st := applyOverrides cache defaults [] overrides
    applyRemoves cache st.1 st.2
  else
    none

example : merge_process_env ["A=1", "B=2"] ["B=3", "C"] = some ["A=1", "B=3"] := by decide

example : merge_process_env ["A=1"] ["B=2", "B=3"] = some ["A=1", "B=2", "B=3"] := by decide

example : merge_process_env ["A"] [] = none := by decide

example : merge_process_env ["N=0"] ["N=1", "N"] = some [] := by decide

theorem cacheLookup_none_iff (n : String) (ds : List String) :
    cacheLookup n ds = none ↔ ∀ e ∈ ds, envName e ≠ n := by
  induction ds with
  | nil => simp [cacheLookup]
  | cons e rest ih =>
    cases h : cacheLookup n rest with
    | some k =>
      simp only [cacheLookup, h]
      constructor
      · intro hc; cases hc
      · intro hall
        have hrest : ∀ x ∈ rest, envName x ≠ n :=
          fun x hx => hall x (List.mem_cons_of_mem _ hx)
        rw [← ih] at hrest
        rw [hrest] at h
        cases h
    | none =>
      simp only [cacheLookup, h]
      by_cases he : envName e = n
      · simp only [he, if_pos rfl]
        constructor
        · intro hc; cases hc
        · intro hall; exact absurd he (hall e (List.mem_cons_self _ _))
      · simp only [if_neg he]
        constructor
        · intro _ x hx
          rcases List.mem_cons.mp hx with rfl | hx
          · exact he
          · exact (ih.mp h) x hx
        · intro _; trivial

theorem cacheLookup_some_iff (n : String) (ds : List String) (i : Nat) :
    cacheLookup n ds = some i ↔
      i < ds.length ∧ envName (ds.getD i "") = n ∧
        ∀ j, j < ds.length → i < j → envName (ds.getD j "") ≠ n := by
  induction ds generalizing i with
  | nil => simp [cacheLookup]
  | cons e rest ih =>
    cases h : cacheLookup n rest with
    | some k =>
      obtain ⟨hk1, hk2, hk3⟩ := (ih k).mp h
      simp only [cacheLookup, h]
      constructor
      · intro hi
        have hik : i = k + 1 := by cases hi; rfl
        subst hik
        refine ⟨Nat.succ_lt_succ hk1, by simpa using hk2, ?_⟩
        intro j hj hkj
        cases j with
        | zero => cases hkj
        | succ j =>
          have : k < j := Nat.lt_of_succ_lt_succ hkj
          simpa using hk3 j (Nat.lt_of_succ_lt_succ hj) this
      · rintro ⟨h1, h2, h3⟩
        cases i with
        | zero =>
          exact absurd hk2
            (by simpa using h3 (k + 1) (Nat.succ_lt_succ hk1) (Nat.succ_pos k))
        | succ i =>
          have : cacheLookup n rest = some i := by
            apply (ih i).mpr
            refine ⟨Nat.lt_of_succ_lt_succ h1, by simpa using h2, ?_⟩
            intro j hj hij
            simpa using h3 (j + 1) (Nat.succ_lt_succ hj) (Nat.succ_lt_succ hij)
          rw [h] at this
          cases this
          rfl
    | none =>
      have hrest : ∀ x ∈ rest, envName x ≠ n := (cacheLookup_none_iff n rest).mp h
      simp only [cacheLookup, h]
      by_cases he : envName e = n
      · simp only [he, if_pos rfl]
        constructor
        · intro hi
          have : i = 0 := by cases hi; rfl
          subst this
          refine ⟨Nat.succ_pos _, by simpa using he, ?_⟩
          intro j hj hj0
          cases j with
          | zero => cases hj0
          | succ j =>
            have hjlen : j < rest.length := Nat.lt_of_succ_lt_succ hj
            have : rest.getD j "" ∈ rest := by
              rw [List.getD_eq_getElem _ _ hjlen]
              exact List.getElem_mem _
            simpa using hrest _ this
        · rintro ⟨h1, h2, h3⟩
          cases i with
          | zero => rfl
          | succ i =>
            have hilen : i < rest.length := Nat.lt_of_succ_lt_succ h1
            have : rest.getD i "" ∈ rest := by
              rw [List.getD_eq_getElem _ _ hilen]
              exact List.getElem_mem _
            exact absurd (by simpa using h2) (hrest _ this)
      · simp only [if_neg he]
        constructor
        · intro hc; cases hc
        · rintro ⟨h1, h2, h3⟩
          cases i with
          | zero => exact absurd (by simpa using h2) he
          | succ i =>
            have hilen : i < rest.length := Nat.lt_of_succ_lt_succ h1
            have : rest.getD i "" ∈ rest := by
              rw [List.getD_eq_getElem _ _ hilen]
              exact List.getElem_mem _
            exact absurd (by simpa using h2) (hrest _ this)

/-- C1: the environment merge proceeds in three phases exactly as
specified: the first conjunct shows `merge_process_env` is the pipeline
index-defaults, then apply substitutions/appends, then apply removals
against the pre-override index; the second characterizes the index as the
position of the last `defaults` entry carrying each name; the third is the
specified example: merging defaults `["A=1","B=2"]` with overrides
`["B=3","C"]` yields `["A=1","B=3"]`. -/
theorem C1_env_merge_three_phases :
    (∀ ds os, merge_process_env ds os =
      if ds.all hasEq then
        applyRemoves (fun n => cacheLookup n ds)
          (applyOverrides (fun n => cacheLookup n ds) ds [] os).1
          (applyOverrides (fun n => cacheLookup n ds) ds [] os).2
      else none)
    ∧ (∀ n ds i, cacheLookup n ds = some i ↔
        i < ds.length ∧ envName (ds.getD i "") = n ∧
          ∀ j, j < ds.length → i < j → envName (ds.getD j "") ≠ n)
    ∧ merge_process_env ["A=1", "B=2"] ["B=3", "C"] = some ["A=1", "B=3"] :=
  ⟨fun _ _ => rfl, cacheLookup_some_iff, by decide⟩

theorem C1_env_merge_three_phases_witness :
    cacheLookup "B" ["A=1", "B=2"] = some 1 :=
  (C1_env_merge_three_phases.2.1 "B" ["A=1", "B=2"] 1).mpr (by decide)

/-- C9: `merge_process_env` panics (modelled as `none`) whenever some
element of `defaults` contains no `=` character, regardless of the
overrides list: the indexing loop `unwrap`s the `=`-search. -/
theorem C9_env_merge_panics_without_eq (ds os : List String) (e : String)
    (he : e ∈ ds) (hne : hasEq e = false) :
    merge_process_env ds os = none := by
  have hall : ds.all hasEq = false := by
    rw [List.all_eq_false]
    exact ⟨e, he, by simp [hne]⟩
  simp [merge_process_env, hall]

theorem C9_env_merge_panics_without_eq_witness :
    merge_process_env ["PLAIN"] ["B=2"] = none :=
  C9_env_merge_panics_without_eq ["PLAIN"] ["B=2"] "PLAIN" (by decide) (by decide)

/-- Override applied to one defaults entry: the first override whose name
matches the entry's name, the entry itself when none does.  Used to state
what the in-place replacement loop computes when override names are
pairwise distinct. -/
def substFirst (os : List String) (e : String) : String :=
  match os.find? (fun o => decide (envName o = envName e)) with
  | some o => o
  | none => e

/-- Overrides whose name is new relative to the defaults list; these are
the entries the merge appends at the end. -/
def newEnvFilter (ds0 os : List String) : List String :=
  os.filter (fun o => decide (envName o ∉ ds0.map envName))

/-- State of the defaults list after the substitution/append loop has
consumed the overrides `os`: pre-existing names replaced in place, new
names appended in override order. -/
def overState (ds0 os : List String) : List String :=
  ds0.map (substFirst os) ++ newEnvFilter ds0 os

theorem envName_substFirst (os : List String) (e : String) :
    envName (substFirst os e) = envName e := by
  unfold substFirst
  cases h : os.find? (fun o => decide (envName o = envName e)) with
  | none => rfl
  | some o => simpa using List.find?_some h

theorem substFirst_nil (e : String) : substFirst [] e = e := rfl

theorem overState_nil (ds : List String) : overState ds [] = ds := by
  unfold overState newEnvFilter
  simp only [List.filter_nil, List.append_nil]
  rw [List.map_congr_left (fun e _ => substFirst_nil e)]
  exact List.map_id ds

theorem substFirst_append_ne (os : List String) (o e : String)
    (h : envName o ≠ envName e) :
    substFirst (os ++ [o]) e = substFirst os e := by
  unfold substFirst
  rw [List.find?_append]
  cases hf : os.find? (fun x => decide (envName x = envName e)) with
  | some x => rfl
  | none => simp [List.find?, h]

theorem substFirst_append_eq (os : List String) (o e : String)
    (hnone : ∀ x ∈ os, envName x ≠ envName e)
    (h : envName o = envName e) :
    substFirst (os ++ [o]) e = o := by
  unfold substFirst
  rw [List.find?_append]
  have : os.find? (fun x => decide (envName x = envName e)) = none :=
    List.find?_eq_none.mpr (by simpa using hnone)
  simp [this, List.find?, h]

theorem overState_set (ds0 os1 : List String) (o : String) (i : Nat)
    (hnd : (ds0.map envName).Nodup)
    (hi : i < ds0.length)
    (hname : envName (ds0.getD i "") = envName o)
    (hnotin : ∀ x ∈ os1, envName x ≠ envName o) :
    (overState ds0 os1).set i o = overState ds0 (os1 ++ [o]) := by
  have hnameE := hname
  rw [List.getD_eq_getElem _ _ hi] at hnameE
  have hmem : envName o ∈ ds0.map envName := by
    rw [← hnameE]
    exact List.mem_map_of_mem envName (List.getElem_mem hi)
  have hfilter : newEnvFilter ds0 (os1 ++ [o]) = newEnvFilter ds0 os1 := by
    unfold newEnvFilter
    rw [List.filter_append]
    have hdrop : List.filter (fun x => decide (envName x ∉ ds0.map envName)) [o] = [] := by
      simp only [List.filter_cons, List.filter_nil]
      rw [if_neg]
      simp [hmem]
    rw [hdrop, List.append_nil]
  have hmap : ds0.map (substFirst (os1 ++ [o])) = (ds0.map (substFirst os1)).set i o := by
    apply List.ext_getElem (by simp)
    intro j hj1 hj2
    have hjlen : j < ds0.length := by simpa using hj1
    rw [List.getElem_map, List.getElem_set]
    by_cases hij : i = j
    · subst hij
      simp only [if_pos rfl]
      apply substFirst_append_eq
      · intro x hx
        rw [hnameE]
        exact hnotin x hx
      · exact hnameE.symm
    · simp only [if_neg hij, List.getElem_map]
      apply substFirst_append_ne
      intro heq
      apply hij
      have him : i < (ds0.map envName).length := by simpa using hi
      have hjm : j < (ds0.map envName).length := by simpa using hjlen
      have h1g : (ds0.map envName).get ⟨i, him⟩ = (ds0.map envName).get ⟨j, hjm⟩ := by
        rw [List.get_eq_getElem, List.get_eq_getElem]
        simp only [List.getElem_map]
        rw [hnameE, heq]
      rw [List.get_eq_getElem, List.get_eq_getElem] at h1g
      exact (hnd.getElem_inj_iff).mp h1g
  unfold overState
  rw [hfilter, hmap, List.set_append_left _ _ (by simpa using hi)]

theorem overState_app (ds0 os1 : List String) (o : String)
    (hnotds : envName o ∉ ds0.map envName) :
    overState ds0 os1 ++ [o] = overState ds0 (os1 ++ [o]) := by
  unfold overState newEnvFilter
  rw [List.filter_append]
  have hmap : ds0.map (substFirst (os1 ++ [o])) = ds0.map (substFirst os1) := by
    apply List.map_congr_left
    intro e he
    apply substFirst_append_ne
    intro heq
    exact hnotds (heq ▸ List.mem_map_of_mem envName he)
  rw [hmap]
  have hkeep : List.filter (fun x => decide (envName x ∉ ds0.map envName)) [o] = [o] := by
    simp only [List.filter_cons, List.filter_nil]
    rw [if_pos]
    simp [hnotds]
  rw [hkeep, List.append_assoc]

theorem applyOverrides_overState (ds0 : List String)
    (hnd : (ds0.map envName).Nodup) :
    ∀ os2 os1,
      ((os1 ++ os2).map envName).Nodup →
      (∀ o ∈ os2, hasEq o = true) →
      applyOverrides (fun n => cacheLookup n ds0) (overState ds0 os1) [] os2
        = (overState ds0 (os1 ++ os2), []) := by
  intro os2
  induction os2 with
  | nil =>
    intro os1 _ _
    simp [applyOverrides]
  | cons o rest ih =>
    intro os1 hnodup hall
    have ho : hasEq o = true := hall o (List.mem_cons_self _ _)
    have hassoc : (os1 ++ [o]) ++ rest = os1 ++ (o :: rest) := by
      rw [List.append_assoc]
      rfl
    have htail : ∀ x ∈ rest, hasEq x = true :=
      fun x hx => hall x (List.mem_cons_of_mem _ hx)
    cases hc : cacheLookup (envName o) ds0 with
    | some i =>
      obtain ⟨hi, hnamei, -⟩ := (cacheLookup_some_iff _ _ _).mp hc
      have hnotin : ∀ x ∈ os1, envName x ≠ envName o := by
        intro x hx heq
        have hdisj := List.disjoint_of_nodup_append (by rwa [← List.map_append])
        exact hdisj (heq ▸ List.mem_map_of_mem envName hx)
          (List.mem_map_of_mem envName (List.mem_cons_self _ _))
      simp only [applyOverrides, ho, if_pos, hc]
      rw [overState_set ds0 os1 o i hnd hi hnamei hnotin]
      rw [← hassoc] at hnodup ⊢
      exact ih (os1 ++ [o]) hnodup htail
    | none =>
      have hno : envName o ∉ ds0.map envName := by
        intro hmem
        obtain ⟨e, he, heq⟩ := List.mem_map.mp hmem
        exact ((cacheLookup_none_iff _ _).mp hc) e he heq
      simp only [applyOverrides, ho, if_pos, hc]
      rw [overState_app ds0 os1 o hno]
      rw [← hassoc] at hnodup ⊢
      exact ih (os1 ++ [o]) hnodup htail

/-- C4 as stated is false: with defaults `["A=1"]` (unique names) and
overrides `["B=2","B=3"]`, the name `B` is appended twice because the
name-to-index cache is not updated within one override batch, so `B` does
not appear exactly once and the resulting names are not unique. -/
theorem C4_env_unique_names_cex :
    (["A=1"].map envName).Nodup
    ∧ merge_process_env ["A=1"] ["B=2", "B=3"] = some ["A=1", "B=2", "B=3"]
    ∧ ¬ ((["A=1", "B=2", "B=3"].map envName).Nodup) :=
  ⟨by decide, by decide, by decide⟩

/-- C4 (amended): when, in addition, the overrides all carry a value and
their names are pairwise distinct, the merged result is exactly the
defaults with each overridden entry replaced in place (position preserved)
followed by the new-name overrides appended in order, and the names in the
result are unique. -/
theorem C4_env_unique_names (ds os : List String)
    (h1 : ds.all hasEq = true)
    (h2 : (ds.map envName).Nodup)
    (h3 : ∀ o ∈ os, hasEq o = true)
    (h4 : (os.map envName).Nodup) :
    merge_process_env ds os = some (ds.map (substFirst os) ++ newEnvFilter ds os)
    ∧ (((ds.map (substFirst os) ++ newEnvFilter ds os)).map envName).Nodup := by
  constructor
  · have hmain := applyOverrides_overState ds h2 os [] (by simpa using h4) h3
    rw [overState_nil] at hmain
    simp only [merge_process_env, if_pos h1]
    rw [hmain]
    rfl
  · rw [List.map_append]
    apply List.Nodup.append
    · have : (ds.map (substFirst os)).map envName = ds.map envName := by
        rw [List.map_map]
        exact List.map_congr_left (fun e _ => envName_substFirst os e)
      rw [this]
      exact h2
    · have hsub : List.Sublist ((newEnvFilter ds os).map envName) (os.map envName) :=
        List.Sublist.map envName (List.filter_sublist os)
      exact List.Nodup.sublist hsub h4
    · intro x hx1 hx2
      obtain ⟨e, he, heq⟩ := List.mem_map.mp hx2
      have hnew : envName e ∉ ds.map envName := by
        have := List.of_mem_filter he
        simpa using this
      apply hnew
      rw [heq]
      obtain ⟨d, hd, heqd⟩ := List.mem_map.mp hx1
      obtain ⟨d0, hd0, heq0⟩ := List.mem_map.mp hd
      rw [← heqd, ← heq0, envName_substFirst]
      exact List.mem_map_of_mem envName hd0

theorem C4_env_unique_names_witness :
    merge_process_env ["A=1", "B=2"] ["B=3", "C=4"] = some ["A=1", "B=3", "C=4"] := by
  have h := C4_env_unique_names ["A=1", "B=2"] ["B=3", "C=4"]
    (by decide) (by decide) (by decide) (by decide)
  exact h.1.trans (by decide)

/-- Fields of `oci_spec::image::Config` read by the merge engine. -/
structure ImageCfg where
  cmd : Option (List String)
  entrypoint : Option (List String)
  workingDir : Option String
  env : Option (List String)
  volumes : Option (List String)
deriving DecidableEq

/-- Embedding of `oci_spec::image::ImageConfiguration`: an optional inner
config section. -/
structure ImageConfiguration where
  config : Option ImageCfg
deriving DecidableEq

deriving instance DecidableEq for Except

/-- Embedding of `merge_process_args` (`src/cri.rs` lines 339-380). -/
def merge_process_args (container_command container_args : List String)
    (image_config : ImageConfiguration) : Except String (List String) :=
  let image_cmd :=
    match image_config.config with
    | some config => config.cmd.getD []
    | none => []
  let image_entrypoint :=
    match image_config.config with
    | some config => config.entrypoint.getD []
    | none => []
  let args :=
    if container_command.isEmpty then
      (if container_args.isEmpty then container_args ++ image_cmd else container_args)
    else container_args
  let command :=
    if container_command.isEmpty then
      (if image_entrypoint.length = 1 ∧ image_entrypoint.headD "" = "" then
        container_command
      else container_command ++ image_entrypoint)
    else container_command
  if command.isEmpty ∧ args.isEmpty then Except.error "no command specified"
  else Except.ok (command ++ args)

example :
    merge_process_args [] [] ⟨some ⟨some ["a", "b"], some [], none, none, none⟩⟩
      = Except.ok ["a", "b"] := by decide


example :
    merge_process_args [] [] ⟨some ⟨some ["a"], some [""], none, none, none⟩⟩
      = Except.ok ["a"] := by decide

example :
    merge_process_args [] [] ⟨some ⟨some [], some [], none, none, none⟩⟩
      = Except.error "no command specified" := by decide

/-- C3: the process-args merge returns the container command and args
verbatim when the container command is non-empty; otherwise the command is
the image entrypoint unless it is the single-empty-string sentinel, the
args are the container args if non-empty and else the image cmd; the call
fails with "no command specified" exactly when the resulting
command-and-args concatenation is empty. -/
theorem C3_merge_args_spec (cc ca : List String) (ic : ImageConfiguration) :
    merge_process_args cc ca ic =
      (let ep :=
        match ic.config with
        | some config => config.entrypoint.getD []
        | none => []
      let icmd :=
        match ic.config with
        | some config => config.cmd.getD []
        | none => []
      let command :=
        if cc = [] then (if ep.length = 1 ∧ ep.headD "" = "" then [] else ep) else cc
      let args := if cc = [] ∧ ca = [] then icmd else ca
      if command ++ args = [] then Except.error "no command specified"
      else Except.ok (command ++ args)) := by
  cases cc with
  | cons c cs =>
    simp [merge_process_args]
  | nil =>
    cases ca with
    | cons a as =>
      by_cases hs :
        (match ic.config with
          | some config => config.entrypoint.getD []
          | none => []).length = 1 ∧
        (match ic.config with
          | some config => config.entrypoint.getD []
          | none => []).headD "" = "" <;>
        simp [merge_process_args, hs, List.isEmpty_iff]
    | nil =>
      by_cases hs :
        (match ic.config with
          | some config => config.entrypoint.getD []
          | none => []).length = 1 ∧
        (match ic.config with
          | some config => config.entrypoint.getD []
          | none => []).headD "" = "" <;>
        simp [merge_process_args, hs, List.isEmpty_iff, List.append_eq_nil]

/-- Embedding of `oci_spec::runtime::Mount`: destination plus optional
source, type and options; paths as strings. -/
structure Mount where
  destination : String
  source : Option String
  typ : Option String
  options : Option (List String)
deriving DecidableEq

/-- Left-biased choice of optional values, used to state which source a
destination-keyed merge retains. -/
def oor {α : Type} : Option α → Option α → Option α
  | some a, _ => some a
  | none, b => b

theorem oor_none_right {α : Type} (a : Option α) : oor a none = a := by
  cases a <;> rfl

/-- One destination-keyed `HashMap` insert of `merge_mounts`
(`src/cri.rs` lines 496-506): replace the value stored under an existing
key, otherwise add a new entry. -/
def insertMount : List (String × Mount) → Mount → List (String × Mount)
  | [], mt => [(mt.destination, mt)]
  | p :: rest, mt =>
    if p.1 = mt.destination then (p.1, mt) :: rest else p :: insertMount rest mt

/-- Content of the `HashMap` built by `merge_mounts` (`src/cri.rs` lines
487-509): all of `extras` inserted first, then all of `mounts`. -/
def mergeMountsMap (mounts extras : List Mount) : List (String × Mount) :=
  mounts.foldl insertMount (extras.foldl insertMount [])

/-- Embedding of `merge_mounts`: the `HashMap`'s `values()` in an
unspecified iteration order, abstracted by a reordering function `σ`
(constrained to a permutation in the theorems below). -/
def merge_mounts (σ : List Mount → List Mount) (mounts extras : List Mount) : List Mount :=
  σ ((mergeMountsMap mounts extras).map Prod.snd)

/-- Last mount of a list carrying a given destination: the entry a
sequence of destination-keyed inserts leaves for that destination. -/
def findLastDest : List Mount → String → Option Mount
  | [], _ => none
  | mt :: rest, d =>
    oor (findLastDest rest d) (if mt.destination = d then some mt else none)

/-- Lookup in the association-list model of the destination-keyed map. -/
def assocLookup (d : String) : List (String × Mount) → Option Mount
  | [] => none
  | p :: rest => if p.1 = d then some p.2 else assocLookup d rest

theorem assocLookup_insertMount (m : List (String × Mount)) (mt : Mount) (d : String) :
    assocLookup d (insertMount m mt)
      = if mt.destination = d then some mt else assocLookup d m := by
  induction m with
  | nil =>
    by_cases hd : mt.destination = d <;> simp [insertMount, assocLookup, hd]
  | cons p rest ih =>
    by_cases hp : p.1 = mt.destination
    · by_cases hd : mt.destination = d
      · simp only [insertMount]
        rw [if_pos hp]
        simp [assocLookup, hp, hd]
      · simp only [insertMount]
        rw [if_pos hp]
        simp [assocLookup, hp, hd]
    · by_cases hd2 : p.1 = d
      · have hmd : mt.destination ≠ d := fun h => hp (hd2.trans h.symm)
        simp only [insertMount]
        rw [if_neg hp]
        simp [assocLookup, hd2, hmd]
      · simp only [insertMount]
        rw [if_neg hp]
        simp [assocLookup, hd2, ih]

theorem assocLookup_foldl (l : List Mount) :
    ∀ (r : List (String × Mount)) (d : String),
      assocLookup d (l.foldl insertMount r) = oor (findLastDest l d) (assocLookup d r) := by
  induction l with
  | nil =>
    intro r d
    simp [findLastDest, oor]
  | cons mt rest ih =>
    intro r d
    rw [List.foldl_cons, ih (insertMount r mt) d, assocLookup_insertMount]
    show _ = oor (oor (findLastDest rest d) (if mt.destination = d then some mt else none)) _
    cases hf : findLastDest rest d with
    | some m => rfl
    | none =>
      by_cases hd : mt.destination = d <;> simp [oor, hd]

theorem mergeMountsMap_lookup (ms es : List Mount) (d : String) :
    assocLookup d (mergeMountsMap ms es) = oor (findLastDest ms d) (findLastDest es d) := by
  unfold mergeMountsMap
  rw [assocLookup_foldl, assocLookup_foldl]
  have h0 : assocLookup d ([] : List (String × Mount)) = none := rfl
  rw [h0, oor_none_right]

theorem insertMount_key_inv (m : List (String × Mount)) (mt : Mount)
    (h : ∀ p ∈ m, (Prod.snd p).destination = p.1) :
    ∀ p ∈ insertMount m mt, (Prod.snd p).destination = p.1 := by
  induction m with
  | nil =>
    intro p hp
    simp only [insertMount, List.mem_singleton] at hp
    subst hp
    rfl
  | cons q rest ih =>
    intro p hp
    by_cases hq : q.1 = mt.destination
    · rw [insertMount, if_pos hq] at hp
      rcases List.mem_cons.mp hp with rfl | hp
      · exact hq.symm
      · exact h p (List.mem_cons_of_mem _ hp)
    · rw [insertMount, if_neg hq] at hp
      rcases List.mem_cons.mp hp with rfl | hp
      · exact h p (List.mem_cons_self _ _)
      · exact ih (fun x hx => h x (List.mem_cons_of_mem _ hx)) p hp

theorem foldl_insertMount_key_inv (l : List Mount) :
    ∀ (r : List (String × Mount)),
      (∀ p ∈ r, (Prod.snd p).destination = p.1) →
      ∀ p ∈ l.foldl insertMount r, (Prod.snd p).destination = p.1 := by
  induction l with
  | nil => intro r hr; exact hr
  | cons mt rest ih =>
    intro r hr
    rw [List.foldl_cons]
    exact ih (insertMount r mt) (insertMount_key_inv r mt hr)

theorem mergeMountsMap_key_inv (ms es : List Mount) :
    ∀ p ∈ mergeMountsMap ms es, (Prod.snd p).destination = p.1 :=
  foldl_insertMount_key_inv ms _
    (foldl_insertMount_key_inv es [] (by intro p hp; cases hp))

theorem assocLookup_eq_none_iff (d : String) (m : List (String × Mount)) :
    assocLookup d m = none ↔ d ∉ m.map Prod.fst := by
  induction m with
  | nil => simp [assocLookup]
  | cons p rest ih =>
    by_cases hp : p.1 = d
    · simp [assocLookup, hp]
    · simp only [assocLookup, if_neg hp, ih, List.map_cons, List.mem_cons]
      constructor
      · intro h hc
        rcases hc with hc | hc
        · exact hp hc.symm
        · exact h hc
      · intro h hc
        exact h (Or.inr hc)

theorem keys_insertMount (m : List (String × Mount)) (mt : Mount) :
    (insertMount m mt).map Prod.fst
      = if mt.destination ∈ m.map Prod.fst then m.map Prod.fst
        else m.map Prod.fst ++ [mt.destination] := by
  induction m with
  | nil => simp [insertMount]
  | cons p rest ih =>
    by_cases hp : p.1 = mt.destination
    · rw [insertMount, if_pos hp]
      simp [hp.symm]
    · rw [insertMount, if_neg hp, List.map_cons, ih, List.map_cons]
      by_cases hmem : mt.destination ∈ rest.map Prod.fst
      · rw [if_pos hmem, if_pos (List.mem_cons_of_mem _ hmem)]
      · rw [if_neg hmem, if_neg ?_, List.cons_append]
        intro hc
        rcases List.mem_cons.mp hc with hc | hc
        · exact hp hc.symm
        · exact hmem hc

theorem keys_nodup_insertMount (m : List (String × Mount)) (mt : Mount)
    (h : (m.map Prod.fst).Nodup) : ((insertMount m mt).map Prod.fst).Nodup := by
  rw [keys_insertMount]
  by_cases hmem : mt.destination ∈ m.map Prod.fst
  · rwa [if_pos hmem]
  · rw [if_neg hmem]
    apply List.Nodup.append h (List.nodup_singleton _)
    intro x hx hx2
    rw [List.mem_singleton] at hx2
    exact hmem (hx2 ▸ hx)

theorem keys_nodup_foldl (l : List Mount) :
    ∀ (r : List (String × Mount)), (r.map Prod.fst).Nodup →
      ((l.foldl insertMount r).map Prod.fst).Nodup := by
  induction l with
  | nil => intro r hr; exact hr
  | cons mt rest ih =>
    intro r hr
    rw [List.foldl_cons]
    exact ih (insertMount r mt) (keys_nodup_insertMount r mt hr)

theorem mergeMountsMap_keys_nodup (ms es : List Mount) :
    ((mergeMountsMap ms es).map Prod.fst).Nodup :=
  keys_nodup_foldl ms _ (keys_nodup_foldl es [] List.nodup_nil)

theorem findLastDest_eq_none_iff (l : List Mount) (d : String) :
    findLastDest l d = none ↔ ∀ m ∈ l, m.destination ≠ d := by
  induction l with
  | nil => simp [findLastDest]
  | cons mt rest ih =>
    rw [findLastDest]
    cases hf : findLastDest rest d with
    | some m =>
      simp only [oor]
      constructor
      · intro hc; cases hc
      · intro hall
        have : ∀ x ∈ rest, x.destination ≠ d :=
          fun x hx => hall x (List.mem_cons_of_mem _ hx)
        rw [← ih] at this
        rw [this] at hf
        cases hf
    | none =>
      by_cases hd : mt.destination = d
      · simp only [oor, if_pos hd]
        constructor
        · intro hc; cases hc
        · intro hall; exact absurd hd (hall mt (List.mem_cons_self _ _))
      · simp only [oor, if_neg hd]
        constructor
        · intro _ x hx
          rcases List.mem_cons.mp hx with rfl | hx
          · exact hd
          · exact (ih.mp hf) x hx
        · intro _; trivial

theorem findLastDest_mem (l : List Mount) (d : String) (m : Mount)
    (h : findLastDest l d = some m) : m ∈ l ∧ m.destination = d := by
  induction l with
  | nil => cases h
  | cons mt rest ih =>
    rw [findLastDest] at h
    cases hf : findLastDest rest d with
    | some x =>
      rw [hf] at h
      cases h
      obtain ⟨h1, h2⟩ := ih hf
      exact ⟨List.mem_cons_of_mem _ h1, h2⟩
    | none =>
      rw [hf] at h
      by_cases hd : mt.destination = d
      · rw [if_pos hd] at h
        cases h
        exact ⟨List.mem_cons_self _ _, hd⟩
      · rw [if_neg hd] at h
        cases h

theorem findLastDest_of_mem (l : List Mount) (d : String) (m : Mount)
    (hnd : (l.map Mount.destination).Nodup) (hm : m ∈ l) (hd : m.destination = d) :
    findLastDest l d = some m := by
  induction l with
  | nil => cases hm
  | cons mt rest ih =>
    rw [List.map_cons, List.nodup_cons] at hnd
    rcases List.mem_cons.mp hm with rfl | hm
    · have hnone : findLastDest rest d = none := by
        rw [findLastDest_eq_none_iff]
        intro x hx hxd
        exact hnd.1 (hd ▸ hxd ▸ List.mem_map_of_mem Mount.destination hx)
      rw [findLastDest, hnone, if_pos hd]
      rfl
    · rw [findLastDest, ih hnd.2 hm]
      rfl

theorem findLastDest_perm (l1 l2 : List Mount) (hperm : List.Perm l1 l2)
    (hnd : (l2.map Mount.destination).Nodup) (d : String) :
    findLastDest l1 d = findLastDest l2 d := by
  have hnd1 : (l1.map Mount.destination).Nodup :=
    (List.Perm.nodup_iff (List.Perm.map Mount.destination hperm)).mpr hnd
  cases h2 : findLastDest l2 d with
  | some m =>
    obtain ⟨hm, hmd⟩ := findLastDest_mem l2 d m h2
    exact findLastDest_of_mem l1 d m hnd1 (hperm.symm.subset hm) hmd
  | none =>
    rw [findLastDest_eq_none_iff] at h2 ⊢
    intro m hm
    exact h2 m (hperm.subset hm)

theorem mergeMountsMap_values_dest (ms es : List Mount) :
    ((mergeMountsMap ms es).map Prod.snd).map Mount.destination
      = (mergeMountsMap ms es).map Prod.fst := by
  rw [List.map_map]
  exact List.map_congr_left (fun p hp => mergeMountsMap_key_inv ms es p hp)

theorem mergeMountsMap_values_dest_nodup (ms es : List Mount) :
    (((mergeMountsMap ms es).map Prod.snd).map Mount.destination).Nodup := by
  rw [mergeMountsMap_values_dest]
  exact mergeMountsMap_keys_nodup ms es

theorem findLastDest_values (m : List (String × Mount))
    (hkey : ∀ p ∈ m, (Prod.snd p).destination = p.1)
    (hnd : (m.map Prod.fst).Nodup) (d : String) :
    findLastDest (m.map Prod.snd) d = assocLookup d m := by
  induction m with
  | nil => rfl
  | cons p rest ih =>
    rw [List.map_cons, List.nodup_cons] at hnd
    have hkeyr : ∀ q ∈ rest, (Prod.snd q).destination = q.1 :=
      fun q hq => hkey q (List.mem_cons_of_mem _ hq)
    have hkp : (Prod.snd p).destination = p.1 := hkey p (List.mem_cons_self _ _)
    rw [List.map_cons, findLastDest, ih hkeyr hnd.2, assocLookup]
    by_cases hd : p.1 = d
    · have hnone : assocLookup d rest = none := by
        rw [assocLookup_eq_none_iff]
        exact fun hc => hnd.1 (hd ▸ hc)
      rw [hnone, if_pos hd, if_pos (hkp.trans hd)]
      rfl
    · rw [if_neg hd, if_neg (fun h => hd (hkp ▸ h)), oor_none_right]

theorem findLastDest_merge (σ : List Mount → List Mount)
    (hσ : ∀ l, List.Perm (σ l) l) (ms es : List Mount) (d : String) :
    findLastDest (merge_mounts σ ms es) d = oor (findLastDest ms d) (findLastDest es d) := by
  unfold merge_mounts
  rw [findLastDest_perm _ _ (hσ _) (mergeMountsMap_values_dest_nodup ms es) d,
    findLastDest_values _ (mergeMountsMap_key_inv ms es) (mergeMountsMap_keys_nodup ms es) d,
    mergeMountsMap_lookup]

theorem merge_mounts_dest_nodup (σ : List Mount → List Mount)
    (hσ : ∀ l, List.Perm (σ l) l) (ms es : List Mount) :
    ((merge_mounts σ ms es).map Mount.destination).Nodup := by
  unfold merge_mounts
  exact (List.Perm.nodup_iff (List.Perm.map Mount.destination (hσ _))).mpr
    (mergeMountsMap_values_dest_nodup ms es)

/-- Embedding of `ContainerPolicy::get_mounts` (`src/policy.rs` lines
283-320): three successive two-way merges, pod-declared mounts against the
orchestrator fragment's mounts, then the image volumes, then the spec's
default mounts; absent mount lists skip their merge.  Each merge's
`values()` order is abstracted by its own reordering function. -/
def ContainerPolicy.get_mounts (σ1 σ2 σ3 : List Mount → List Mount)
    (pod_mounts : List Mount) (kube_mounts : Option (List Mount))
    (image_volumes : List Mount) (default_mounts : Option (List Mount)) : List Mount :=
  let results :=
    match kube_mounts with
    | some km => merge_mounts σ1 pod_mounts km
    | none => pod_mounts
  let results2 := merge_mounts σ2 results image_volumes
  match default_mounts with
  | some dm => merge_mounts σ3 results2 dm
  | none => results2

/-- C2: `merge_mounts` keys by destination with precedence extras below
mounts, replacing colliding mounts wholesale (first conjunct: the merged
map holds, per destination, the last `mounts` entry with that destination
when one exists, else the last `extras` entry); and the per-container
assembly of three successive two-way merges yields net precedence
pod-declared over orchestrator-injected over image volumes over runtime
defaults (second conjunct), for any hash-map iteration orders. -/
theorem C2_mount_merge_precedence :
    (∀ (ms es : List Mount) (d : String),
      assocLookup d (mergeMountsMap ms es) = oor (findLastDest ms d) (findLastDest es d))
    ∧ ∀ (σ1 σ2 σ3 : List Mount → List Mount)
        (pod kube image defs : List Mount) (d : String),
        (∀ l, List.Perm (σ1 l) l) → (∀ l, List.Perm (σ2 l) l) →
        (∀ l, List.Perm (σ3 l) l) →
        findLastDest
            (ContainerPolicy.get_mounts σ1 σ2 σ3 pod (some kube) image (some defs)) d
          = oor (oor (oor (findLastDest pod d) (findLastDest kube d))
              (findLastDest image d)) (findLastDest defs d) := by
  refine ⟨mergeMountsMap_lookup, ?_⟩
  intro σ1 σ2 σ3 pod kube image defs d h1 h2 h3
  unfold ContainerPolicy.get_mounts
  rw [findLastDest_merge σ3 h3, findLastDest_merge σ2 h2, findLastDest_merge σ1 h1]

theorem C2_mount_merge_precedence_witness :
    assocLookup "/x"
        (mergeMountsMap [Mount.mk "/x" none (some "bind") none]
          [Mount.mk "/x" none (some "local") none])
      = some (Mount.mk "/x" none (some "bind") none)
    ∧ findLastDest
        (ContainerPolicy.get_mounts id id id
          [Mount.mk "/x" none (some "pod") none] (some [Mount.mk "/x" none (some "kube") none])
          [Mount.mk "/x" none (some "img") none] (some [Mount.mk "/x" none (some "def") none]))
        "/x"
      = some (Mount.mk "/x" none (some "pod") none) := by
  constructor
  · rw [C2_mount_merge_precedence.1]
    decide
  · rw [C2_mount_merge_precedence.2 id id id _ _ _ _ _
      (fun l => List.Perm.refl l) (fun l => List.Perm.refl l) (fun l => List.Perm.refl l)]
    decide

theorem assocLookup_some_iff_mem (m : List (String × Mount))
    (hnd : (m.map Prod.fst).Nodup) (d : String) (v : Mount) :
    assocLookup d m = some v ↔ (d, v) ∈ m := by
  induction m with
  | nil => simp [assocLookup]
  | cons q rest ih =>
    rw [List.map_cons, List.nodup_cons] at hnd
    by_cases hq : q.1 = d
    · rw [assocLookup, if_pos hq]
      constructor
      · intro h
        cases h
        rw [← hq]
        exact List.mem_cons_self _ _
      · intro h
        rcases List.mem_cons.mp h with heq | hmem
        · rw [← heq]
        · exact absurd (hq ▸ List.mem_map_of_mem Prod.fst hmem) hnd.1
    · rw [assocLookup, if_neg hq, ih hnd.2]
      constructor
      · intro h
        exact List.mem_cons_of_mem _ h
      · intro h
        rcases List.mem_cons.mp h with heq | hmem
        · exact absurd (by rw [← heq]) hq
        · exact hmem

theorem assoc_perm_of_lookup_eq (m1 m2 : List (String × Mount))
    (h1 : (m1.map Prod.fst).Nodup) (h2 : (m2.map Prod.fst).Nodup)
    (heq : ∀ d, assocLookup d m1 = assocLookup d m2) :
    List.Perm m1 m2 := by
  rw [List.perm_ext_iff_of_nodup (List.Nodup.of_map Prod.fst h1) (List.Nodup.of_map Prod.fst h2)]
  intro p
  constructor
  · intro hp
    exact (assocLookup_some_iff_mem m2 h2 p.1 p.2).mp
      (by rw [← heq]; exact (assocLookup_some_iff_mem m1 h1 p.1 p.2).mpr hp)
  · intro hp
    exact (assocLookup_some_iff_mem m1 h1 p.1 p.2).mp
      (by rw [heq]; exact (assocLookup_some_iff_mem m2 h2 p.1 p.2).mpr hp)

theorem mergeMountsMap_perm_left (s1 s1b es : List Mount)
    (hp : List.Perm s1 s1b) (hnd : (s1b.map Mount.destination).Nodup) :
    List.Perm (mergeMountsMap s1 es) (mergeMountsMap s1b es) := by
  apply assoc_perm_of_lookup_eq _ _ (mergeMountsMap_keys_nodup _ _) (mergeMountsMap_keys_nodup _ _)
  intro d
  rw [mergeMountsMap_lookup, mergeMountsMap_lookup, findLastDest_perm s1 s1b hp hnd]

theorem merge_mounts_perm_congr (σ τ : List Mount → List Mount)
    (hσ : ∀ l, List.Perm (σ l) l) (hτ : ∀ l, List.Perm (τ l) l)
    (ms ms2 es : List Mount) (hperm : List.Perm ms ms2)
    (hnd : (ms2.map Mount.destination).Nodup) :
    List.Perm (merge_mounts σ ms es) (merge_mounts τ ms2 es) :=
  (hσ _).trans ((List.Perm.map Prod.snd (mergeMountsMap_perm_left ms ms2 es hperm hnd)).trans
    (hτ _).symm)

/-- Helper mounts for concrete order-dependence checks. -/
def mountA : Mount := Mount.mk "/a" none none none

def mountB : Mount := Mount.mk "/b" none none none

/-- C5 as stated is false: the mount list `merge_mounts` returns is the
`HashMap`'s `values()` in hasher-seed-dependent iteration order, so two
runs (two valid iteration orders of the same two-entry map, here reversal
and identity) return the same mounts in different orders. -/
theorem C5_determinism_cex :
    List.Perm (List.reverse ((mergeMountsMap [mountA] [mountB]).map Prod.snd))
      ((mergeMountsMap [mountA] [mountB]).map Prod.snd)
    ∧ merge_mounts List.reverse [mountA] [mountB] ≠ merge_mounts id [mountA] [mountB] :=
  ⟨List.reverse_perm _, by decide⟩

/-- C5 (amended): compilation is deterministic up to hash-map iteration
order: for any two families of valid iteration orders (permutations), the
two-way mount merge and the full per-container three-merge assembly
produce the same mounts as multisets (results that are permutations of
each other), and by `C2_mount_merge_precedence` the destination-keyed
content is a function of the inputs alone. -/
theorem C5_content_determinism (σ1 σ2 σ3 τ1 τ2 τ3 : List Mount → List Mount)
    (pod kube image defs : List Mount)
    (hσ1 : ∀ l, List.Perm (σ1 l) l) (hσ2 : ∀ l, List.Perm (σ2 l) l)
    (hσ3 : ∀ l, List.Perm (σ3 l) l)
    (hτ1 : ∀ l, List.Perm (τ1 l) l) (hτ2 : ∀ l, List.Perm (τ2 l) l)
    (hτ3 : ∀ l, List.Perm (τ3 l) l) :
    List.Perm (merge_mounts σ1 pod kube) (merge_mounts τ1 pod kube)
    ∧ List.Perm
        (ContainerPolicy.get_mounts σ1 σ2 σ3 pod (some kube) image (some defs))
        (ContainerPolicy.get_mounts τ1 τ2 τ3 pod (some kube) image (some defs)) := by
  have h1 : List.Perm (merge_mounts σ1 pod kube) (merge_mounts τ1 pod kube) :=
    (hσ1 _).trans (hτ1 _).symm
  refine ⟨h1, ?_⟩
  show List.Perm
    (merge_mounts σ3 (merge_mounts σ2 (merge_mounts σ1 pod kube) image) defs)
    (merge_mounts τ3 (merge_mounts τ2 (merge_mounts τ1 pod kube) image) defs)
  have hnd1 : ((merge_mounts τ1 pod kube).map Mount.destination).Nodup :=
    merge_mounts_dest_nodup τ1 hτ1 pod kube
  have h2 : List.Perm (merge_mounts σ2 (merge_mounts σ1 pod kube) image)
      (merge_mounts τ2 (merge_mounts τ1 pod kube) image) :=
    merge_mounts_perm_congr σ2 τ2 hσ2 hτ2 _ _ image h1 hnd1
  have hnd2 : ((merge_mounts τ2 (merge_mounts τ1 pod kube) image).map Mount.destination).Nodup :=
    merge_mounts_dest_nodup τ2 hτ2 _ image
  exact merge_mounts_perm_congr σ3 τ3 hσ3 hτ3 _ _ defs h2 hnd2

theorem C5_content_determinism_witness :
    List.Perm (merge_mounts List.reverse [mountA] [mountB]) (merge_mounts id [mountA] [mountB])
    ∧ List.Perm
        (ContainerPolicy.get_mounts List.reverse List.reverse List.reverse
          [mountA] (some [mountB]) [] (some []))
        (ContainerPolicy.get_mounts id id id [mountA] (some [mountB]) [] (some [])) :=
  C5_content_determinism List.reverse List.reverse List.reverse id id id [mountA] [mountB] [] []
    (fun l => List.reverse_perm l) (fun l => List.reverse_perm l) (fun l => List.reverse_perm l)
    (fun l => List.Perm.refl l) (fun l => List.Perm.refl l) (fun l => List.Perm.refl l)

/-- Embedding of the `oci_spec::runtime::User` fields the tool sets. -/
structure User where
  uid : Nat
  gid : Nat
deriving DecidableEq

/-- Embedding of the `oci_spec::runtime::Process` fields the tool sets. -/
structure Process where
  user : User
  cwd : String
  env : Option (List String)
  args : Option (List String)
deriving DecidableEq

/-- Embedding of the `oci_spec::runtime::Spec` fields the tool sets. -/
structure Spec where
  ociVersion : String
  process : Option Process
  mounts : Option (List Mount)
deriving DecidableEq

/-- Environment list of a spec's process, empty when absent. -/
def specEnvList (s : Spec) : List String :=
  match s.process with
  | some p => p.env.getD []
  | none => []

namespace kubernetes

/-- The service-discovery environment patterns of `src/kubernetes.rs`
lines 31-40. -/
def kubeEnvPatterns : List String := [
  "^[A-Z0-9_]+_SERVICE_HOST=^((25[0-5]|(2[0-4]|1\\d|[1-9]|)\\d).?\\b){4}$",
  "^[A-Z0-9_]+_SERVICE_PORT=[0-9]+",
  "^[A-Z0-9_]+_SERVICE_PORT_[A-Z]+=[0-9]+",
  "^[A-Z0-9_]+_PORT=[a-z]+://^((25[0-5]|(2[0-4]|1\\d|[1-9]|)\\d).?\\b){4}:[0-9]+",
  "^[A-Z0-9_]+_PORT_[0-9]+_[A-Z]+=[a-z]+://^((25[0-5]|(2[0-4]|1\\d|[1-9]|)\\d).?\\b){4}:[0-9]+",
  "^[A-Z0-9_]+_PORT_[0-9]+_[A-Z]+_PROTO=[a-z]+",
  "^[A-Z0-9_]+_PORT_[0-9]+_[A-Z]+_PORT=[0-9]+",
  "^[A-Z0-9_]+_PORT_[0-9]+_[A-Z]+_ADDR=^((25[0-5]|(2[0-4]|1\\d|[1-9]|)\\d).?\\b){4}$"
]

/-- The two orchestrator-injected bind mounts of `src/kubernetes.rs`
lines 47-72. -/
def kubeContainerMounts : List Mount := [
  Mount.mk "/dev/termination-log"
    (some "^/run/kata-containers/shared/containers/[a-z0-9]+-[a-z0-9]+-termination-log$")
    (some "bind") (some ["rbind", "rprivate", "rw"]),
  Mount.mk "/var/run/secrets/kubernetes.io/serviceaccount"
    (some "^/run/kata-containers/shared/containers/[a-z0-9]+-[a-z0-9]+-serviceaccount$")
    (some "bind") (some ["rbind", "rprivate", "ro"])
]

/-- Embedding of `kubernetes::get_container_rules` (`src/kubernetes.rs`
lines 15-77): spec parsed from `{}` (empty version) with the
service-discovery env patterns and the two injected mounts. -/
def get_container_rules : Spec :=
  Spec.mk "" (some (Process.mk (User.mk 0 0) "" (some kubeEnvPatterns) none))
    (some kubeContainerMounts)

/-- Embedding of `kubernetes::get_sandbox_rules` (`src/kubernetes.rs`
lines 80-84): the spec parsed from `{}`, no process, no mounts. -/
def get_sandbox_rules : Spec :=
  Spec.mk "" none none

/-- Embedding of `kubernetes::get_rules` (`src/kubernetes.rs` lines
86-92). -/
def get_rules (is_sandbox : Bool) : Spec :=
  if !is_sandbox then get_container_rules else get_sandbox_rules

end kubernetes

/-- C6 as stated is false: the orchestrator-default fragment for a regular
container carries eight environment patterns, not nine. -/
theorem C6_orchestrator_fragment_cex :
    (specEnvList (kubernetes.get_rules false)).length = 8
    ∧ ((specEnvList (kubernetes.get_rules false)).length = 9 → False) :=
  ⟨rfl, by decide⟩

/-- C6 (amended): the orchestrator-default fragment for a regular
container contains exactly eight anchored environment patterns (each
beginning with `^`) plus exactly the two bind mounts, a read-write
termination-log file and a read-only projected service-account directory,
while the sandbox's orchestrator fragment has no process and no mounts. -/
theorem C6_orchestrator_fragment :
    (specEnvList (kubernetes.get_rules false)).length = 8
    ∧ (specEnvList (kubernetes.get_rules false)).all
        (fun p => p.data.headD ' ' = '^') = true
    ∧ (kubernetes.get_rules false).mounts = some [
        Mount.mk "/dev/termination-log"
          (some "^/run/kata-containers/shared/containers/[a-z0-9]+-[a-z0-9]+-termination-log$")
          (some "bind") (some ["rbind", "rprivate", "rw"]),
        Mount.mk "/var/run/secrets/kubernetes.io/serviceaccount"
          (some "^/run/kata-containers/shared/containers/[a-z0-9]+-[a-z0-9]+-serviceaccount$")
          (some "bind") (some ["rbind", "rprivate", "ro"])]
    ∧ (kubernetes.get_rules true).process = none
    ∧ (kubernetes.get_rules true).mounts = none :=
  ⟨rfl, by decide, rfl, rfl, rfl⟩

/-- The six standard mounts of the `DEFAULT_MOUNTS` template
(`src/cri.rs` lines 13-78). -/
def defaultMounts : List Mount := [
  Mount.mk "/proc" (some "^proc$") (some "proc") (some ["nosuid", "noexec", "nodev"]),
  Mount.mk "/dev" (some "^tmpfs$") (some "tmpfs")
    (some ["nosuid", "strictatime", "mode=755", "size=65536k"]),
  Mount.mk "/dev/pts" (some "^devpts$") (some "devpts")
    (some ["nosuid", "noexec", "newinstance", "ptmxmode=0666", "mode=0620", "gid=5"]),
  Mount.mk "/dev/mqueue" (some "^mqueue$") (some "mqueue") (some ["nosuid", "noexec", "nodev"]),
  Mount.mk "/dev/shm" (some "^/run/kata-containers/sandbox/shm$") (some "bind") (some ["rbind"]),
  Mount.mk "/sys" (some "^sysfs$") (some "sysfs") (some ["nosuid", "noexec", "nodev", "ro"])
]

/-- The read-only cgroup mount (`src/cri.rs` lines 133-148). -/
def cgroupMount : Mount :=
  Mount.mk "/sys/fs/cgroup" (some "^cgroup$") (some "cgroup")
    (some ["nosuid", "noexec", "nodev", "relatime", "ro"])

/-- The hostname/hosts/resolv.conf bind mounts for regular containers
(`src/cri.rs` lines 154-189). -/
def etcMounts : List Mount := [
  Mount.mk "/etc/hostname"
    (some "^/run/kata-containers/shared/containers/[a-z0-9]+-[a-z0-9]+-hostname$")
    (some "bind") (some ["rbind", "rprivate", "rw"]),
  Mount.mk "/etc/hosts"
    (some "^/run/kata-containers/shared/containers/[a-z0-9]+-[a-z0-9]+-hosts$")
    (some "bind") (some ["rbind", "rprivate", "rw"]),
  Mount.mk "/etc/resolv.conf"
    (some "^/run/kata-containers/shared/containers/[a-z0-9]+-[a-z0-9]+-resolv.conf$")
    (some "bind") (some ["rbind", "rprivate", "rw"])
]

/-- The sandbox resolv.conf bind mount (`src/cri.rs` lines 282-294). -/
def sandboxResolvMount : Mount :=
  Mount.mk "/etc/resolv.conf"
    (some "^/run/kata-containers/shared/containers/[a-z0-9]+-[a-z0-9]+-resolv.conf$")
    (some "bind") (some ["rbind", "ro"])

/-- Replace each `ro` option by `rw`, leaving every other option
unchanged (`options.iter_mut().for_each` in `src/cri.rs`). -/
def flipRoOptions (options : List String) : List String :=
  options.map (fun o => if o = "ro" then "rw" else o)

/-- Privileged-mode adjustment of one mount for a regular container
(`src/cri.rs` lines 194-230): two sequential checks flip `ro` options of
`sysfs`-typed then `cgroup`-typed mounts; a missing type or options field
is an error. -/
def adjustContainerMount (m : Mount) : Except String Mount :=
  match m.typ with
  | none => Except.error "failed to get mount type"
  | some t =>
    let step1 : Except String Mount :=
      if t = "sysfs" then
        match m.options with
        | some opts => Except.ok { m with options := some (flipRoOptions opts) }
        | none => Except.error "failed to get options"
      else Except.ok m
    match step1 with
    | Except.error e => Except.error e
    | Except.ok m1 =>
      if t = "cgroup" then
        match m1.options with
        | some opts => Except.ok { m1 with options := some (flipRoOptions opts) }
        | none => Except.error "failed to get options"
      else Except.ok m1

/-- Privileged-mode adjustment of one mount for the sandbox
(`src/cri.rs` lines 298-321): only `sysfs`-typed mounts are adjusted. -/
def adjustSandboxMount (m : Mount) : Except String Mount :=
  match m.typ with
  | none => Except.error "failed to get mount type"
  | some t =>
    if t = "sysfs" then
      match m.options with
      | some opts => Except.ok { m with options := some (flipRoOptions opts) }
      | none => Except.error "failed to get options"
    else Except.ok m

namespace cri

/-- Environment patterns `cri::get_container_rules` pushes
(`src/cri.rs` lines 103-119). -/
def containerEnv (tty : Bool) : List String :=
  ["^HOSTNAME=.+", "^PATH=/usr/local/sbin:/usr/local/bin:/usr/sbin:/usr/bin:/sbin:/bin$"]
    ++ (if tty then ["TERM=xterm"] else [])

/-- Mounts assembled by `cri::get_container_rules` before the privileged
adjustment: defaults, then the cgroup mount, then the etc mounts. -/
def containerBaseMounts : List Mount := defaultMounts ++ [cgroupMount] ++ etcMounts

/-- Embedding of `cri::get_container_rules` (`src/cri.rs` lines 80-236). -/
def get_container_rules (privileged tty : Bool) : Except String Spec :=
  match (if privileged then containerBaseMounts.mapM adjustContainerMount
      else Except.ok containerBaseMounts) with
  | Except.error e => Except.error e
  | Except.ok mounts =>
    Except.ok (Spec.mk "1.0.2-dev"
      (some (Process.mk (User.mk 0 0) "/" (some (containerEnv tty)) none)) (some mounts))

/-- Environment patterns `cri::get_sandbox_rules` pushes
(`src/cri.rs` lines 261-268). -/
def sandboxEnv (tty : Bool) : List String :=
  if tty then ["TERM=xterm"] else []

/-- Mounts assembled by `cri::get_sandbox_rules` before the privileged
adjustment: defaults, then the resolv.conf mount. -/
def sandboxBaseMounts : List Mount := defaultMounts ++ [sandboxResolvMount]

/-- Embedding of `cri::get_sandbox_rules` (`src/cri.rs` lines 238-327). -/
def get_sandbox_rules (privileged tty : Bool) : Except String Spec :=
  match (if privileged then sandboxBaseMounts.mapM adjustSandboxMount
      else Except.ok sandboxBaseMounts) with
  | Except.error e => Except.error e
  | Except.ok mounts =>
    Except.ok (Spec.mk "1.0.2-dev"
      (some (Process.mk (User.mk 0 0) "/" (some (sandboxEnv tty)) none)) (some mounts))

/-- Embedding of `cri::get_rules` (`src/cri.rs` lines 329-335). -/
def get_rules (is_sandbox privileged tty : Bool) : Except String Spec :=
  if !is_sandbox then get_container_rules privileged tty else get_sandbox_rules privileged tty

end cri

/-- Pure statement of the privileged adjustment applied to `sysfs` and
`cgroup` mounts (regular containers). -/
def flipRoMount (m : Mount) : Mount :=
  if m.typ = some "sysfs" ∨ m.typ = some "cgroup" then
    { m with options := m.options.map flipRoOptions }
  else m

/-- Pure statement of the privileged adjustment applied to `sysfs` mounts
only (sandbox). -/
def flipRoSysfsMount (m : Mount) : Mount :=
  if m.typ = some "sysfs" then { m with options := m.options.map flipRoOptions } else m

/-- Mount list of a spec-producing computation, `none` on failure. -/
def specMountsE (s : Except String Spec) : Option (List Mount) :=
  match s with
  | Except.ok sp => sp.mounts
  | Except.error _ => none

/-- C7: with privileged true the runtime-default fragments flip every
`ro` option of every `sysfs`- or `cgroup`-typed mount to `rw` (a full
scan over the mount list), leaving every other mount and every other
option unchanged; with privileged false no mount is altered.  The first
two conjuncts compute both fragments for all flag values; the last two
state the frame conditions of the per-mount adjustment. -/
theorem C7_privileged_mount_adjustment :
    (∀ priv tty : Bool,
      specMountsE (cri.get_rules false priv tty)
        = some (if priv then cri.containerBaseMounts.map flipRoMount
            else cri.containerBaseMounts))
    ∧ (∀ priv tty : Bool,
      specMountsE (cri.get_rules true priv tty)
        = some (if priv then cri.sandboxBaseMounts.map flipRoSysfsMount
            else cri.sandboxBaseMounts))
    ∧ (∀ m : Mount, m.typ ≠ some "sysfs" → m.typ ≠ some "cgroup" → flipRoMount m = m)
    ∧ (∀ (m : Mount) (opts : List String),
        (m.typ = some "sysfs" ∨ m.typ = some "cgroup") → m.options = some opts →
        (flipRoMount m).options = some (opts.map (fun o => if o = "ro" then "rw" else o))) := by
  refine ⟨?_, ?_, ?_, ?_⟩
  · intro priv tty
    cases priv <;> cases tty <;> rfl
  · intro priv tty
    cases priv <;> cases tty <;> rfl
  · intro m h1 h2
    unfold flipRoMount
    rw [if_neg (fun h => h.elim h1 h2)]
  · intro m opts h hops
    unfold flipRoMount
    rw [if_pos h, hops]
    rfl

theorem C7_privileged_mount_adjustment_witness :
    specMountsE (cri.get_rules false true false)
      = some (cri.containerBaseMounts.map flipRoMount)
    ∧ flipRoMount (Mount.mk "/x" none (some "bind") (some ["ro"]))
      = Mount.mk "/x" none (some "bind") (some ["ro"]) := by
  constructor
  · exact C7_privileged_mount_adjustment.1 true false
  · exact C7_privileged_mount_adjustment.2.2.1 _ (by decide) (by decide)

/-- Volume types of `src/pod_yaml.rs`. -/
inductive VolumeType
  | Unknown
  | EmptyDir
  | Secret
  | ConfigMap
  | DownwardAPI
  | Projected
  | HostPath
deriving DecidableEq

/-- Embedding of `pod_yaml::Volume`. -/
structure Volume where
  typ : VolumeType
  readonly : Bool
  host_path : String
  is_local : Bool
deriving DecidableEq

/-- One manifest volume declaration, as the fields
`PodYaml::get_volmues` (`src/pod_yaml.rs` lines 238-301) inspects: which
typed keys the mapping contains, checked in the source's priority order.
`emptyDir = some b` models the `emptyDir` key present with `b` meaning
its value is an empty mapping (marking the volume local); `hostPath =
some p` carries the optional `path` string. -/
structure VolumeDecl where
  name : String
  emptyDir : Option Bool
  secret : Bool
  configMap : Bool
  downwardAPI : Bool
  projected : Bool
  hostPath : Option (Option String)
deriving DecidableEq

/-- Resolution of one volume declaration (`src/pod_yaml.rs` lines
252-295): `emptyDir` beats `secret` beats `configMap` beats
`downwardAPI` beats `projected` beats `hostPath`; the four reference-like
types force `readonly`; a bare `emptyDir` marks the volume local. -/
def resolveVolume (v : VolumeDecl) : Volume :=
  match v.emptyDir with
  | some b => Volume.mk VolumeType.EmptyDir false "" b
  | none =>
    match v.secret with
    | true => Volume.mk VolumeType.Secret true "" false
    | false =>
      match v.configMap with
      | true => Volume.mk VolumeType.ConfigMap true "" false
      | false =>
        match v.downwardAPI with
        | true => Volume.mk VolumeType.DownwardAPI true "" false
        | false =>
          match v.projected with
          | true => Volume.mk VolumeType.Projected true "" false
          | false =>
            match v.hostPath with
            | some p => Volume.mk VolumeType.HostPath false (p.getD "") false
            | none => Volume.mk VolumeType.Unknown false "" false

/-- One `HashMap` insert of `get_volmues`, keyed by volume name. -/
def insertVolume : List (String × Volume) → String → Volume → List (String × Volume)
  | [], n, vol => [(n, vol)]
  | p :: rest, n, vol =>
    if p.1 = n then (p.1, vol) :: rest else p :: insertVolume rest n vol

/-- Embedding of `PodYaml::get_volmues`: resolve each declaration and
store it under its name, later declarations overwriting earlier ones. -/
def get_volmues (decls : List VolumeDecl) : List (String × Volume) :=
  decls.foldl (fun m v => insertVolume m v.name (resolveVolume v)) []

/-- Lookup in the volumes table. -/
def volumeLookup (n : String) : List (String × Volume) → Option Volume
  | [] => none
  | p :: rest => if p.1 = n then some p.2 else volumeLookup n rest

/-- One `volumeMounts` request, as the fields `PodYaml::get_mounts`
(`src/pod_yaml.rs` lines 384-469) reads. -/
structure VolumeMountReq where
  mountPath : String
  mountPropagation : Option String
  name : String
  readOnly : Option Bool
deriving DecidableEq

/-- Resolution of one volume-mount request (`src/pod_yaml.rs` lines
392-464): look the named volume up (error when missing), compute the
effective readonly flag, the local/bind type, and the
rbind/propagation/ro-rw options; the source is the volume's host path. -/
def getMount (volumes : List (String × Volume)) (vm : VolumeMountReq) : Except String Mount :=
  let propagation := vm.mountPropagation.getD "None"
  match volumeLookup vm.name volumes with
  | none => Except.error ("failed to find volume " ++ vm.name)
  | some volume =>
    let read_only := volume.readonly || vm.readOnly.getD false
    let typ := if volume.is_local then "local" else "bind"
    match (if propagation = "None" then Except.ok "rprivate"
      else if propagation = "HostToContainer" then Except.ok "rslave"
      else if propagation = "Bidirectional" then Except.ok "rshared"
      else Except.error "Unknown mountPropagation type") with
    | Except.error e => Except.error e
    | Except.ok popt =>
      Except.ok (Mount.mk vm.mountPath (some volume.host_path) (some typ)
        (some (["rbind"] ++ [popt] ++ [if read_only then "ro" else "rw"])))

/-- Embedding of `PodYaml::get_mounts`: resolve each request in order,
failing on the first error. -/
def PodYaml.get_mounts (volumes : List (String × Volume)) (reqs : List VolumeMountReq) :
    Except String (List Mount) :=
  reqs.mapM (getMount volumes)

/-- C8: a volume-mount request resolved against the volumes table gets
effective readonly `volume.readonly OR declared readOnly`, type `local`
exactly for a bare emptyDir volume and `bind` otherwise, options `rbind`
plus the propagation option (None to rprivate, HostToContainer to rslave,
Bidirectional to rshared, anything else an error) plus `ro`/`rw` from the
effective flag, and the volume's host path as source; and resolution of
the volume table forces readonly for Secret/ConfigMap/DownwardAPI/
Projected volumes and marks exactly the bare emptyDir volumes local. -/
theorem C8_volume_mount_resolution :
    (∀ (volumes : List (String × Volume)) (vm : VolumeMountReq) (vol : Volume),
      volumeLookup vm.name volumes = some vol →
      getMount volumes vm =
        (match (if vm.mountPropagation.getD "None" = "None" then some "rprivate"
          else if vm.mountPropagation.getD "None" = "HostToContainer" then some "rslave"
          else if vm.mountPropagation.getD "None" = "Bidirectional" then some "rshared"
          else none) with
        | some popt =>
          Except.ok (Mount.mk vm.mountPath (some vol.host_path)
            (some (if vol.is_local then "local" else "bind"))
            (some ["rbind", popt,
              if vol.readonly || vm.readOnly.getD false then "ro" else "rw"]))
        | none => Except.error "Unknown mountPropagation type"))
    ∧ (∀ v : VolumeDecl,
        ((resolveVolume v).typ = VolumeType.Secret
          ∨ (resolveVolume v).typ = VolumeType.ConfigMap
          ∨ (resolveVolume v).typ = VolumeType.DownwardAPI
          ∨ (resolveVolume v).typ = VolumeType.Projected) →
        (resolveVolume v).readonly = true)
    ∧ (∀ v : VolumeDecl,
        (resolveVolume v).is_local = true ↔
          ((resolveVolume v).typ = VolumeType.EmptyDir ∧ v.emptyDir = some true)) := by
  refine ⟨?_, ?_, ?_⟩
  · intro volumes vm vol hlook
    unfold getMount
    rw [hlook]
    by_cases h1 : vm.mountPropagation.getD "None" = "None"
    · simp [h1]
    · by_cases h2 : vm.mountPropagation.getD "None" = "HostToContainer"
      · simp [h1, h2]
      · by_cases h3 : vm.mountPropagation.getD "None" = "Bidirectional"
        · simp [h1, h2, h3]
        · simp [h1, h2, h3]
  · intro v h
    obtain ⟨n, eD, s, cM, dA, pj, hP⟩ := v
    cases eD <;> cases s <;> cases cM <;> cases dA <;> cases pj <;> cases hP <;>
      simp_all [resolveVolume]
  · intro v
    obtain ⟨n, eD, s, cM, dA, pj, hP⟩ := v
    cases eD with
    | none =>
      cases s <;> cases cM <;> cases dA <;> cases pj <;> cases hP <;>
        simp [resolveVolume]
    | some b =>
      cases b <;> simp [resolveVolume]

theorem C8_volume_mount_resolution_witness :
    getMount [("v1", Volume.mk VolumeType.HostPath false "/host/data" false)]
        (VolumeMountReq.mk "/mnt/data" (some "HostToContainer") "v1" (some true))
      = Except.ok (Mount.mk "/mnt/data" (some "/host/data") (some "bind")
          (some ["rbind", "rslave", "ro"])) := by
  have h := C8_volume_mount_resolution.1
    [("v1", Volume.mk VolumeType.HostPath false "/host/data" false)]
    (VolumeMountReq.mk "/mnt/data" (some "HostToContainer") "v1" (some true))
    (Volume.mk VolumeType.HostPath false "/host/data" false) (by decide)
  exact h.trans (by decide)

theorem takeWhile_eq_self_of_all {α : Type} (p : α → Bool) :
    ∀ l : List α, (∀ a ∈ l, p a = true) → l.takeWhile p = l := by
  intro l
  induction l with
  | nil => intro _; rfl
  | cons a rest ih =>
    intro h
    rw [List.takeWhile_cons_of_pos (h a (List.mem_cons_self _ _)),
      ih (fun x hx => h x (List.mem_cons_of_mem _ hx))]

/-- Embedding of `ContainerPolicy` (`src/policy.rs` lines 28-33): the
assembled spec plus the reserved custom layers list. -/
structure ContainerPolicy where
  oci_spec : Spec
  custom_layers : Option (List String)
deriving DecidableEq

/-- Key under which `CcPolicy::from_image_ref` (`src/policy.rs` lines
93-99) stores its single container entry: when `image_ref.find(':')`
succeeds, the `split_at` prefix before that first `:`; otherwise the
whole reference. -/
def imageRefKey (image_ref : String) : String :=
  if image_ref.data.any (fun c => decide (c = ':')) then
    String.mk (image_ref.data.takeWhile (fun c => decide (c ≠ ':')))
  else
    image_ref

/-- Containers map `CcPolicy::from_image_ref` builds (`src/policy.rs`
lines 90-108), parameterized by the policy computed for the image (image
fetching is an external collaborator): a single entry keyed by
`imageRefKey`. -/
def CcPolicy.from_image_ref_containers (policy : ContainerPolicy) (image_ref : String) :
    List (String × ContainerPolicy) :=
  [(imageRefKey image_ref, policy)]

/-- C10: a policy document built from a bare image reference keys its
single container entry by the prefix of the reference before the first
`:` (the whole reference when no `:` occurs); in particular
`localhost:5000/app` is keyed by the registry host `localhost`, not by
the image name. -/
theorem C10_image_ref_key :
    (∀ (p : ContainerPolicy) (ref : String),
      CcPolicy.from_image_ref_containers p ref = [(imageRefKey ref, p)])
    ∧ (∀ ref : String,
        imageRefKey ref = String.mk (ref.data.takeWhile (fun c => decide (c ≠ ':'))))
    ∧ imageRefKey "localhost:5000/app" = "localhost" := by
  refine ⟨fun p ref => rfl, ?_, by decide⟩
  intro ref
  unfold imageRefKey
  by_cases h : ref.data.any (fun c => decide (c = ':')) = true
  · rw [if_pos h]
  · rw [if_neg h]
    have hall : ∀ c ∈ ref.data, (fun c => decide (c ≠ ':')) c = true := by
      intro c hc
      by_cases hcc : c = ':'
      · exact absurd (List.any_eq_true.mpr ⟨c, hc, by simp [hcc]⟩) h
      · simp [hcc]
    rw [takeWhile_eq_self_of_all _ ref.data hall]

theorem C10_image_ref_key_witness :
    CcPolicy.from_image_ref_containers
        (ContainerPolicy.mk (Spec.mk "" none none) (some [])) "localhost:5000/app"
      = [("localhost", ContainerPolicy.mk (Spec.mk "" none none) (some []))] := by
  rw [C10_image_ref_key.1 (ContainerPolicy.mk (Spec.mk "" none none) (some []))
    "localhost:5000/app"]
  rw [C10_image_ref_key.2.2]
